import Mathlib

/-!
Verification development for the `terraform-provider-context` core library.

The Go sources are shallowly embedded: Go strings are modelled as `List Char`
(the code only manipulates ASCII data, where Go's byte indexing and Lean's
character lists coincide), Go maps from string to string are modelled as
association lists with unique keys, and fallible functions return `Except`.

Embedded units:
  * `internal/core/cloud.go` — per-provider tag formatting rules;
  * `pkg/context` naming (`NameGenerator.Generate`, `validateAndTruncate`,
    `intelligentTruncate`);
  * `pkg/context` tags (`TagProcessor.Process`, `ProcessDataTags`, `addTag`,
    conversion helpers).
-/

namespace TfCtx

/-- Go strings, modelled as lists of characters. -/
abbrev Str := List Char

end TfCtx

deriving instance DecidableEq for Except

namespace TfCtx

/-- ASCII lowercase letter test (`[a-z]` in the Go regexes). -/
def isAsciiLower (c : Char) : Bool := decide (97 ≤ c.toNat ∧ c.toNat ≤ 122)

/-- ASCII uppercase letter test (`[A-Z]` in the Go regexes). -/
def isAsciiUpper (c : Char) : Bool := decide (65 ≤ c.toNat ∧ c.toNat ≤ 90)

/-- ASCII digit test (`[0-9]` in the Go regexes). -/
def isAsciiDigit (c : Char) : Bool := decide (48 ≤ c.toNat ∧ c.toNat ≤ 57)

/-- ASCII model of Go's `strings.ToLower` on a single character. -/
def goToLowerChar (c : Char) : Char :=
  if isAsciiUpper c then Char.ofNat (c.toNat + 32) else c

/-- ASCII model of Go's `strings.ToLower`. -/
def goToLower (s : Str) : Str := s.map goToLowerChar

/-- The cloud providers implemented in `internal/core/cloud.go`
(`AWSProvider`, `AzureProvider`, `GCPProvider`, `DefaultProvider`). -/
inductive Provider where
  | aws
  | azure
  | gcp
  | dflt
deriving DecidableEq, Repr

/-- `GetMaxTagLength` of each provider. -/
def GetMaxTagLength : Provider → Nat
  | .aws => 256
  | .azure => 256
  | .gcp => 63
  | .dflt => 63

/-- `GetDelimiter` of each provider. -/
def GetDelimiter : Provider → Str
  | .aws => [' ']
  | .azure => [';']
  | .gcp => ['_']
  | .dflt => [';']

/-- `GetNAValue` of each provider. -/
def GetNAValue : Provider → Str
  | .aws => "N/A".data
  | .azure => "NotApplicable".data
  | .gcp => "not_applicable".data
  | .dflt => "N/A".data

/-- Membership in the complement of the character class of `awsSanitizeRegex`
(the class is written in Go as a raw string whose body ends `=+@_` slash
hyphen, and whose `\\` is a regex-escaped literal backslash): letters,
digits, space, backslash, dot, colon, equals, plus, at, underscore, slash
and hyphen are kept. -/
def awsValueAllowed (c : Char) : Bool :=
  isAsciiLower c || isAsciiUpper c || isAsciiDigit c ||
  c == ' ' || c == '\\' || c == '.' || c == ':' || c == '=' ||
  c == '+' || c == '@' || c == '_' || c == '/' || c == '-'

/-- Membership in the character class of `azureSanitizeRegex`, `[ <>%&\\?/#:]`. -/
def azureValueRemoved (c : Char) : Bool :=
  c == ' ' || c == '<' || c == '>' || c == '%' || c == '&' ||
  c == '\\' || c == '?' || c == '/' || c == '#' || c == ':'

/-- Membership in the character class of `gcpSanitizeRegex`'s complement,
`[a-z0-9_-]`. -/
def gcpValueAllowed (c : Char) : Bool :=
  isAsciiLower c || isAsciiDigit c || c == '_' || c == '-'

/-- Membership in the character class of `defaultSanitizeRegex`, `[<>%&\\?]`. -/
def defaultValueRemoved (c : Char) : Bool :=
  c == '<' || c == '>' || c == '%' || c == '&' || c == '\\' || c == '?'

/-- `SanitizeTagValue` of each provider (`internal/core/cloud.go`):
AWS replaces characters outside its allowed class with `_`; Azure deletes
the characters of its class; GCP lowercases and then replaces characters
outside `[a-z0-9_-]` with `-`; the default rule replaces `[<>%&\\?]` with `_`. -/
def SanitizeTagValue : Provider → Str → Str
  | .aws, s => s.map fun c => if awsValueAllowed c then c else '_'
  | .azure, s => s.filter fun c => !azureValueRemoved c
  | .gcp, s => (goToLower s).map fun c => if gcpValueAllowed c then c else '-'
  | .dflt, s => s.map fun c => if defaultValueRemoved c then '_' else c

/-- Membership in the character class of `awsValidateKeyRegex`,
`^[a-zA-Z0-9 +\-=._:/]+$`. -/
def awsKeyAllowed (c : Char) : Bool :=
  isAsciiLower c || isAsciiUpper c || isAsciiDigit c ||
  c == ' ' || c == '+' || c == '-' || c == '=' || c == '.' ||
  c == '_' || c == ':' || c == '/'

/-- Membership in the character class of `azureValidateKeyRegex`, `[<>%&\\?/]`. -/
def azureKeyBad (c : Char) : Bool :=
  c == '<' || c == '>' || c == '%' || c == '&' || c == '\\' ||
  c == '?' || c == '/'

/-- Membership in the character class of `defaultValidateKeyRegex`'s body,
`^[a-zA-Z0-9_-]+$`. -/
def defaultKeyAllowed (c : Char) : Bool :=
  isAsciiLower c || isAsciiUpper c || isAsciiDigit c || c == '_' || c == '-'

/-- `ValidateTagKey` of each provider (`internal/core/cloud.go`). -/
def ValidateTagKey : Provider → Str → Bool
  | .aws, s => !s.isEmpty && s.all awsKeyAllowed
  | .azure, s => !s.any azureKeyBad
  | .gcp, s =>
      match s with
      | [] => false
      | c :: rest => isAsciiLower c && rest.all gcpValueAllowed
  | .dflt, s => !s.isEmpty && s.all defaultKeyAllowed

/-! ### Name generation (`pkg/context` naming unit) -/

/-- `MaxNamePrefixLength` from the naming unit. -/
def MaxNamePrefixLength : Nat := 24

/-- `MinNamePrefixLength` from the naming unit. -/
def MinNamePrefixLength : Nat := 2

/-- Characters admitted by the inner part of `namePrefixRegex`, `[a-z0-9-]`. -/
def isNameMid (c : Char) : Bool :=
  isAsciiLower c || isAsciiDigit c || c == '-'

/-- Characters admitted at the end of `namePrefixRegex`, `[a-z0-9]`. -/
def isNameEnd (c : Char) : Bool :=
  isAsciiLower c || isAsciiDigit c

/-- Match against `namePrefixRegex = ^[a-z][a-z0-9-]{0,22}[a-z0-9]$`:
2 to 24 characters, the first in `[a-z]`, the last in `[a-z0-9]`, all
characters after the first in `[a-z0-9-]`. -/
def namePrefixMatch (s : Str) : Bool :=
  decide (2 ≤ s.length) && decide (s.length ≤ 24) &&
  (match s.head? with
   | some c => isAsciiLower c
   | none => false) &&
  s.tail.all isNameMid &&
  (match s.getLast? with
   | some c => isNameEnd c
   | none => false)

/-- The `NameGenerator` struct of the naming unit. -/
structure NameGenerator where
  Namespace : Str
  Name : Str
  Environment : Str
deriving DecidableEq, Repr

/-- The errors returned by `Generate` and `validateAndTruncate`, one
constructor per distinct `fmt.Errorf` call site. -/
inductive NameError where
  /-- "name is required when namespace and environment are not provided" -/
  | nameRequired
  /-- "at least one of namespace, name, or environment must be provided" -/
  | allEmpty
  /-- "name prefix must be at least 2 characters" -/
  | tooShort
  /-- "name prefix does not match required pattern" -/
  | invalidFormat
deriving DecidableEq, Repr

/-- Go's `strings.TrimSuffix s "-"`: drop one trailing hyphen if present. -/
def trimSuffixHyphen (s : Str) : Str :=
  if s.getLast? = some '-' then s.dropLast else s

/-- Helper for `stripTrailingHyphens`, working on the reversed string:
drop leading hyphens while the length stays above `MinNamePrefixLength`. -/
def dropHyphensRev : Str → Str
  | [] => []
  | c :: rest =>
      if c = '-' ∧ MinNamePrefixLength < (c :: rest).length then dropHyphensRev rest
      else c :: rest

/-- The loop in `intelligentTruncate` that strips trailing hyphens while the
length stays above `MinNamePrefixLength`. -/
def stripTrailingHyphens (s : Str) : Str :=
  (dropHyphensRev s.reverse).reverse

/-- `intelligentTruncate` from the naming unit.  The preferred branch keeps
namespace and environment (taken from the generator's original fields) and
truncates the name; the fallback hard-truncates to 24 characters, strips
trailing hyphens down to the minimum length, and drops one final
non-alphanumeric character.  Go's `availableForName` is a signed int. -/
def intelligentTruncate (ng : NameGenerator) (np : Str) : Str :=
  if np.length ≤ MaxNamePrefixLength then np
  else
    let baseLen : Int := ng.Namespace.length + ng.Environment.length + 2
    let availableForName : Int := (MaxNamePrefixLength : Int) - baseLen
    if ng.Namespace ≠ [] ∧ ng.Name ≠ [] ∧ ng.Environment ≠ [] ∧
        2 ≤ availableForName then
      let truncatedName :=
        if availableForName < (ng.Name.length : Int) then
          ng.Name.take availableForName.toNat
        else ng.Name
      let truncatedName := trimSuffixHyphen truncatedName
      ng.Namespace ++ '-' :: (truncatedName ++ '-' :: ng.Environment)
    else
      let result := np.take MaxNamePrefixLength
      let result := stripTrailingHyphens result
      if !result.isEmpty &&
          (match result.getLast? with
           | some c => !isNameEnd c
           | none => true) then
        result.dropLast
      else result

/-- `validateAndTruncate` from the naming unit: lowercase, reject below the
minimum length, truncate above the maximum length, then check the pattern. -/
def validateAndTruncate (ng : NameGenerator) (np0 : Str) : Except NameError Str :=
  let np := goToLower np0
  if np.length < MinNamePrefixLength then .error .tooShort
  else
    let np := if MaxNamePrefixLength < np.length then intelligentTruncate ng np else np
    if namePrefixMatch np then .ok np else .error .invalidFormat

/-- The list `parts` built by `Generate`: the non-empty fields among
namespace, name, environment, in that order. -/
def generateParts (ng : NameGenerator) : List Str :=
  (if ng.Namespace ≠ [] then [ng.Namespace] else []) ++
  (if ng.Name ≠ [] then [ng.Name] else []) ++
  (if ng.Environment ≠ [] then [ng.Environment] else [])

/-- Hyphen join, Go's `strings.Join(parts, "-")`. -/
def joinHyphen (parts : List Str) : Str :=
  List.intercalate ['-'] parts

/-- `Generate` from the naming unit. -/
def Generate (ng : NameGenerator) : Except NameError Str :=
  if ng.Namespace = [] ∧ ng.Environment = [] then
    if ng.Name = [] then .error .nameRequired
    else validateAndTruncate ng ng.Name
  else
    let parts := generateParts ng
    if parts = [] then .error .allEmpty
    else validateAndTruncate ng (joinHyphen parts)

/-- The string handed to `validateAndTruncate` by `Generate` (in the
only-name path this is the bare name, which equals the hyphen join of the
non-empty fields there). -/
def joinedInput (ng : NameGenerator) : Str :=
  joinHyphen (generateParts ng)

/-- The string produced by the lowercasing and truncation steps of
`validateAndTruncate`, before the final pattern check. -/
def truncStep (ng : NameGenerator) : Str :=
  let np := goToLower (joinedInput ng)
  if MaxNamePrefixLength < np.length then intelligentTruncate ng np else np

/-! ### Tag assembly (`pkg/context` tags unit)

Go's `map[string]string` is modelled as an association list with unique
keys; `upsertTag` is one map assignment (`tags[k] = v`), `lookupTag` is map
indexing with presence information, and `mergeTags` is `maps.Copy`. -/

/-- Tag maps: association lists from key to value. -/
abbrev Tags := List (Str × Str)

/-- First value bound to `k`, if any (Go `v, ok := m[k]`). -/
def lookupTag (m : Tags) (k : Str) : Option Str :=
  match m with
  | [] => none
  | (k', v) :: rest => if k' = k then some v else lookupTag rest k

/-- Go map assignment `m[k] = v`: replace the binding if the key is
present, otherwise add it. -/
def upsertTag (m : Tags) (k v : Str) : Tags :=
  if m.any fun p => p.1 = k then
    m.map fun p => if p.1 = k then (k, v) else p
  else m ++ [(k, v)]

/-- `maps.Copy dst src`: assign every binding of `src` into `dst`. -/
def mergeTags (dst src : Tags) : Tags :=
  src.foldl (fun m p => upsertTag m p.1 p.2) dst

/-- The `DataSourceConfig` struct of the tags unit. -/
structure DataSourceConfig where
  Namespace : Str := []
  Name : Str := []
  Environment : Str := []
  EnvironmentName : Str := []
  EnvironmentType : Str := []
  Enabled : Bool := false
  Availability : Str := []
  ManagedBy : Str := []
  DeletionDate : Str := []
  PMPlatform : Str := []
  PMProjectCode : Str := []
  ITSMPlatform : Str := []
  ITSMSystemID : Str := []
  ITSMComponentID : Str := []
  ITSMInstanceID : Str := []
  CostCenter : Str := []
  ProductOwners : List Str := []
  CodeOwners : List Str := []
  DataOwners : List Str := []
  Sensitivity : Str := []
  DataRegs : List Str := []
  SecurityReview : Str := []
  PrivacyReview : Str := []
  SourceRepoTagsEnabled : Bool := false
  SystemPrefixesEnabled : Bool := false
  NotApplicableEnabled : Bool := false
  OwnerTagsEnabled : Bool := false
  AdditionalTags : Tags := []
  AdditionalDataTags : Tags := []
deriving Repr

/-- The `GitInfo` record produced by `GetGitInfo` (an external query; the
tags unit only reads these two fields). -/
structure GitInfo where
  RepoURL : Str
  CommitHash : Str
deriving Repr

/-- The `TagProcessor` struct of the tags unit. -/
structure TagProcessor where
  CloudProvider : Provider
  Config : DataSourceConfig
  TagPrefix : Str
deriving Repr

/-- `addTag` from the tags unit: set the value if non-empty, else set the
not-applicable placeholder when that toggle is on, else add nothing. -/
def addTag (cfg : DataSourceConfig) (tags : Tags) (k v naValue : Str) : Tags :=
  if v ≠ [] then upsertTag tags k v
  else if cfg.NotApplicableEnabled then upsertTag tags k naValue
  else tags

/-- Go `strings.Join(xs, delim)`. -/
def joinWith (delim : Str) (xs : List Str) : Str :=
  List.intercalate delim xs

/-- The finishing loop shared by `Process` and `ProcessDataTags`: prepend
the tag prefix to every key, sanitize every value, truncate values to the
provider's maximum length. -/
def finishTags (p : Provider) (pre : Str) (tags : Tags) : Tags :=
  tags.map fun q =>
    (pre ++ q.1, (SanitizeTagValue p q.2).take (GetMaxTagLength p))

/-- The project-management block of `Process`: a system-prefixed
`projectmgmtid` when enabled with both platform and code set, otherwise an
`addTag` on the project code alone. -/
def pmStage (cfg : DataSourceConfig) (p : Provider) (tags : Tags) : Tags :=
  if cfg.SystemPrefixesEnabled ∧ cfg.PMPlatform ≠ [] ∧ cfg.PMProjectCode ≠ [] then
    upsertTag tags "projectmgmtid".data
      (cfg.PMPlatform ++ GetDelimiter p ++ cfg.PMProjectCode)
  else addTag cfg tags "projectmgmtid".data cfg.PMProjectCode (GetNAValue p)

/-- The ITSM block of `Process`: system-prefixed ids for the present
sub-ids when enabled with a platform, otherwise independent `addTag`s. -/
def itsmStage (cfg : DataSourceConfig) (p : Provider) (tags : Tags) : Tags :=
  if cfg.SystemPrefixesEnabled ∧ cfg.ITSMPlatform ≠ [] then
    let tags :=
      if cfg.ITSMSystemID ≠ [] then
        upsertTag tags "systemid".data
          (cfg.ITSMPlatform ++ GetDelimiter p ++ cfg.ITSMSystemID)
      else tags
    let tags :=
      if cfg.ITSMComponentID ≠ [] then
        upsertTag tags "componentid".data
          (cfg.ITSMPlatform ++ GetDelimiter p ++ cfg.ITSMComponentID)
      else tags
    if cfg.ITSMInstanceID ≠ [] then
      upsertTag tags "instanceid".data
        (cfg.ITSMPlatform ++ GetDelimiter p ++ cfg.ITSMInstanceID)
    else tags
  else
    let tags := addTag cfg tags "systemid".data cfg.ITSMSystemID (GetNAValue p)
    let tags := addTag cfg tags "componentid".data cfg.ITSMComponentID (GetNAValue p)
    addTag cfg tags "instanceid".data cfg.ITSMInstanceID (GetNAValue p)

/-- The ownership block of `Process`: `productowners` and `codeowners`,
emitted only when the owner-tags toggle is on. -/
def ownersStage (cfg : DataSourceConfig) (p : Provider) (tags : Tags) : Tags :=
  if cfg.OwnerTagsEnabled then
    let tags :=
      if cfg.ProductOwners ≠ [] then
        upsertTag tags "productowners".data (joinWith (GetDelimiter p) cfg.ProductOwners)
      else if cfg.NotApplicableEnabled then
        upsertTag tags "productowners".data (GetNAValue p)
      else tags
    if cfg.CodeOwners ≠ [] then
      upsertTag tags "codeowners".data (joinWith (GetDelimiter p) cfg.CodeOwners)
    else if cfg.NotApplicableEnabled then
      upsertTag tags "codeowners".data (GetNAValue p)
    else tags
  else tags

/-- The git-repository block of `Process`: `sourcerepo`/`sourcecommit` via
`addTag` when enabled and the external query succeeded.  The result of
`GetGitInfo` is a parameter; `none` models a failed or unavailable query. -/
def gitStage (cfg : DataSourceConfig) (p : Provider) (gitInfo : Option GitInfo)
    (tags : Tags) : Tags :=
  if cfg.SourceRepoTagsEnabled then
    match gitInfo with
    | some g =>
        let tags := addTag cfg tags "sourcerepo".data g.RepoURL (GetNAValue p)
        addTag cfg tags "sourcecommit".data g.CommitHash (GetNAValue p)
    | none => tags
  else tags

/-- The tag-assembly stage of `Process`, before prefixing/sanitization.
Each Go `tags[k] = v` assignment is an `upsertTag`; the order of the
assignments follows the source. -/
def assembleTags (cfg : DataSourceConfig) (p : Provider)
    (gitInfo : Option GitInfo) : Tags :=
  let naValue := GetNAValue p
  let tags : Tags := []
  let tags := addTag cfg tags "environment".data cfg.EnvironmentName naValue
  let tags := addTag cfg tags "availability".data cfg.Availability naValue
  let tags := addTag cfg tags "managedby".data cfg.ManagedBy naValue
  let tags := addTag cfg tags "deletiondate".data cfg.DeletionDate naValue
  let tags := addTag cfg tags "costcenter".data cfg.CostCenter naValue
  let tags := pmStage cfg p tags
  let tags := itsmStage cfg p tags
  let tags := ownersStage cfg p tags
  let tags := addTag cfg tags "securityreview".data cfg.SecurityReview naValue
  let tags := addTag cfg tags "privacyreview".data cfg.PrivacyReview naValue
  let tags := gitStage cfg p gitInfo tags
  mergeTags tags cfg.AdditionalTags

/-- `Process` from the tags unit (the Go function also returns an error
value that is always nil). -/
def Process (tp : TagProcessor) (gitInfo : Option GitInfo) : Tags :=
  finishTags tp.CloudProvider tp.TagPrefix
    (assembleTags tp.Config tp.CloudProvider gitInfo)

/-- The tag-assembly stage of `ProcessDataTags`, before
prefixing/sanitization. -/
def assembleDataTags (cfg : DataSourceConfig) (p : Provider) : Tags :=
  let delimiter := GetDelimiter p
  let naValue := GetNAValue p
  let tags : Tags := []
  let tags := addTag cfg tags "sensitivity".data cfg.Sensitivity naValue
  let tags :=
    if cfg.DataRegs ≠ [] then
      upsertTag tags "dataregulations".data (joinWith delimiter cfg.DataRegs)
    else if cfg.NotApplicableEnabled then
      upsertTag tags "dataregulations".data naValue
    else tags
  let tags :=
    if cfg.OwnerTagsEnabled ∧ cfg.DataOwners ≠ [] then
      upsertTag tags "dataowners".data (joinWith delimiter cfg.DataOwners)
    else if cfg.NotApplicableEnabled then
      upsertTag tags "dataowners".data naValue
    else tags
  mergeTags tags cfg.AdditionalDataTags

/-- `ProcessDataTags` from the tags unit. -/
def ProcessDataTags (tp : TagProcessor) : Tags :=
  finishTags tp.CloudProvider tp.TagPrefix
    (assembleDataTags tp.Config tp.CloudProvider)

/-! ### Output formatters (`pkg/context` tags unit) -/

/-- Lexicographic string order used by Go's `sort.Strings`, on the
character-list model. -/
def sortTagKeys (keys : List Str) : List Str :=
  keys.insertionSort (· ≤ ·)

/-- `ConvertTagsToListOfMaps`: one `{key, value}` pair per tag, sorted by
key (indexing a Go map at an absent key yields the empty string, hence
`getD`). -/
def ConvertTagsToListOfMaps (tags : Tags) : List (Str × Str) :=
  (sortTagKeys (tags.map Prod.fst)).map fun k => (k, (lookupTag tags k).getD [])

/-- `ConvertTagsToKVPList`: `key=value` strings, sorted by key. -/
def ConvertTagsToKVPList (tags : Tags) : List Str :=
  (sortTagKeys (tags.map Prod.fst)).map fun k =>
    k ++ '=' :: (lookupTag tags k).getD []

/-- `ConvertTagsToCommaSeparated`: the `key=value` list joined with commas. -/
def ConvertTagsToCommaSeparated (tags : Tags) : Str :=
  joinWith [','] (ConvertTagsToKVPList tags)

/-- The character set the specification ascribes to the AWS sanitizer —
letters, digits, space, dot, colon, equals, plus, at, underscore, slash and
hyphen, with no backslash.  Written from the spec's words, to be compared
with the code's `awsValueAllowed`. -/
def awsSpecAllowed (c : Char) : Bool :=
  isAsciiLower c || isAsciiUpper c || isAsciiDigit c ||
  c == ' ' || c == '.' || c == ':' || c == '=' || c == '+' ||
  c == '@' || c == '_' || c == '/' || c == '-'

/-- The scalar configuration fields of `Process` that are emitted through
`addTag` (the git-derived `sourcerepo`/`sourcecommit` values are not
configuration fields). -/
inductive ScalarField where
  | environment
  | availability
  | managedby
  | deletiondate
  | costcenter
  | projectmgmtid
  | systemid
  | componentid
  | instanceid
  | securityreview
  | privacyreview
deriving DecidableEq, Repr

/-- The tag key under which each scalar field is emitted. -/
def scalarKey : ScalarField → Str
  | .environment => "environment".data
  | .availability => "availability".data
  | .managedby => "managedby".data
  | .deletiondate => "deletiondate".data
  | .costcenter => "costcenter".data
  | .projectmgmtid => "projectmgmtid".data
  | .systemid => "systemid".data
  | .componentid => "componentid".data
  | .instanceid => "instanceid".data
  | .securityreview => "securityreview".data
  | .privacyreview => "privacyreview".data

/-- The configuration value passed to `addTag` for each scalar field
(`environment` carries `EnvironmentName`; the short code `Environment` is
used only for name-prefix generation). -/
def scalarValue (cfg : DataSourceConfig) : ScalarField → Str
  | .environment => cfg.EnvironmentName
  | .availability => cfg.Availability
  | .managedby => cfg.ManagedBy
  | .deletiondate => cfg.DeletionDate
  | .costcenter => cfg.CostCenter
  | .projectmgmtid => cfg.PMProjectCode
  | .systemid => cfg.ITSMSystemID
  | .componentid => cfg.ITSMComponentID
  | .instanceid => cfg.ITSMInstanceID
  | .securityreview => cfg.SecurityReview
  | .privacyreview => cfg.PrivacyReview

/-- Whether, in the given configuration, the field reaches its `addTag`
call: the project-management and ITSM keys are instead assigned directly
(or skipped) when system prefixing applies. -/
def scalarHandledByAddTag (cfg : DataSourceConfig) : ScalarField → Prop
  | .projectmgmtid =>
      ¬ (cfg.SystemPrefixesEnabled = true ∧ cfg.PMPlatform ≠ [] ∧
        cfg.PMProjectCode ≠ [])
  | .systemid => ¬ (cfg.SystemPrefixesEnabled = true ∧ cfg.ITSMPlatform ≠ [])
  | .componentid => ¬ (cfg.SystemPrefixesEnabled = true ∧ cfg.ITSMPlatform ≠ [])
  | .instanceid => ¬ (cfg.SystemPrefixesEnabled = true ∧ cfg.ITSMPlatform ≠ [])
  | _ => True

/-! ### Character-level lemmas -/

theorem goToLowerChar_of_not_upper {c : Char} (h : isAsciiUpper c = false) :
    goToLowerChar c = c := by
  simp [goToLowerChar, h]

theorem isNameMid_not_upper {c : Char} (h : isNameMid c = true) :
    isAsciiUpper c = false := by
  simp only [isNameMid, isAsciiLower, isAsciiDigit, Bool.or_eq_true,
    decide_eq_true_eq, beq_iff_eq] at h
  rcases h with (h | h) | h
  · simp only [isAsciiUpper, decide_eq_false_iff_not]
    omega
  · simp only [isAsciiUpper, decide_eq_false_iff_not]
    omega
  · subst h
    decide

theorem gcpValueAllowed_not_upper {c : Char} (h : gcpValueAllowed c = true) :
    isAsciiUpper c = false := by
  simp only [gcpValueAllowed, isAsciiLower, isAsciiDigit, Bool.or_eq_true,
    decide_eq_true_eq, beq_iff_eq] at h
  rcases h with ((h | h) | h) | h
  · simp only [isAsciiUpper, decide_eq_false_iff_not]
    omega
  · simp only [isAsciiUpper, decide_eq_false_iff_not]
    omega
  · subst h
    decide
  · subst h
    decide

theorem goToLower_length (s : Str) : (goToLower s).length = s.length :=
  List.length_map s goToLowerChar

theorem goToLower_of_all_mid {s : Str} (h : ∀ c ∈ s, isNameMid c = true) :
    goToLower s = s := by
  unfold goToLower
  have hmap : List.map goToLowerChar s = List.map id s :=
    List.map_congr_left fun c hc =>
      goToLowerChar_of_not_upper (isNameMid_not_upper (h c hc))
  simpa using hmap

/-! ### Association-list lemmas for the tag-map model -/

theorem lookupTag_eq_none_iff (m : Tags) (k : Str) :
    lookupTag m k = none ↔ ∀ p ∈ m, p.1 ≠ k := by
  induction m with
  | nil => simp [lookupTag]
  | cons q rest ih =>
      by_cases hq : q.1 = k
      · simp [lookupTag, hq]
      · simp [lookupTag, hq, ih]

theorem lookupTag_append (m₁ m₂ : Tags) (k : Str) :
    lookupTag (m₁ ++ m₂) k =
      match lookupTag m₁ k with
      | some v => some v
      | none => lookupTag m₂ k := by
  induction m₁ with
  | nil => simp [lookupTag]
  | cons q rest ih =>
      by_cases hq : q.1 = k <;> simp [lookupTag, hq, ih]

theorem lookupTag_map_replace (m : Tags) (k v : Str)
    (h : (m.any fun p => p.1 = k) = true) :
    lookupTag (m.map fun p => if p.1 = k then (k, v) else p) k = some v := by
  induction m with
  | nil => simp at h
  | cons q rest ih =>
      by_cases hq : q.1 = k
      · rw [List.map_cons, if_pos hq]
        simp [lookupTag]
      · have h' : (rest.any fun p => p.1 = k) = true := by
          simp only [List.any_cons, Bool.or_eq_true, decide_eq_true_eq] at h
          rcases h with h | h
          · exact absurd h hq
          · exact h
        rw [List.map_cons, if_neg hq]
        simp [lookupTag, hq, ih h']

theorem lookupTag_map_replace_ne (m : Tags) (k' v k : Str) (h : k' ≠ k) :
    lookupTag (m.map fun p => if p.1 = k' then (k', v) else p) k = lookupTag m k := by
  induction m with
  | nil => rfl
  | cons q rest ih =>
      by_cases hq : q.1 = k'
      · rw [List.map_cons, if_pos hq]
        have hqk : ¬ q.1 = k := by rw [hq]; exact h
        simp [lookupTag, h, hqk, ih]
      · rw [List.map_cons, if_neg hq]
        by_cases hqk : q.1 = k <;> simp [lookupTag, hqk, ih]

theorem lookupTag_upsert_self (m : Tags) (k v : Str) :
    lookupTag (upsertTag m k v) k = some v := by
  unfold upsertTag
  split
  case isTrue h => exact lookupTag_map_replace m k v h
  case isFalse h =>
    rw [lookupTag_append]
    have hnone : lookupTag m k = none := by
      rw [lookupTag_eq_none_iff]
      intro p hp hpk
      exact h (List.any_eq_true.mpr ⟨p, hp, by simp [hpk]⟩)
    simp [hnone, lookupTag]

theorem lookupTag_upsert_ne (m : Tags) (k' v k : Str) (h : k' ≠ k) :
    lookupTag (upsertTag m k' v) k = lookupTag m k := by
  unfold upsertTag
  split
  · exact lookupTag_map_replace_ne m k' v k h
  · rw [lookupTag_append]
    cases hm : lookupTag m k <;> simp [lookupTag, h]

theorem lookupTag_addTag_ne (cfg : DataSourceConfig) (m : Tags)
    (k' v na k : Str) (h : k' ≠ k) :
    lookupTag (addTag cfg m k' v na) k = lookupTag m k := by
  unfold addTag
  split
  · exact lookupTag_upsert_ne m k' v k h
  · split
    · exact lookupTag_upsert_ne m k' na k h
    · rfl

theorem lookupTag_addTag_empty (cfg : DataSourceConfig) (m : Tags)
    (k na : Str) :
    lookupTag (addTag cfg m k [] na) k =
      if cfg.NotApplicableEnabled then some na else lookupTag m k := by
  unfold addTag
  rw [if_neg (by simp)]
  by_cases hna : cfg.NotApplicableEnabled = true <;>
    simp [hna, lookupTag_upsert_self]

theorem mergeTags_cons (dst : Tags) (q : Str × Str) (rest : Tags) :
    mergeTags dst (q :: rest) = mergeTags (upsertTag dst q.1 q.2) rest := rfl

theorem lookupTag_mergeTags_of_none (dst src : Tags) (k : Str)
    (h : lookupTag src k = none) :
    lookupTag (mergeTags dst src) k = lookupTag dst k := by
  induction src generalizing dst with
  | nil => rfl
  | cons q rest ih =>
      by_cases hq : q.1 = k
      · simp [lookupTag, hq] at h
      · simp only [lookupTag, if_neg hq] at h
        rw [mergeTags_cons, ih _ h, lookupTag_upsert_ne _ _ _ _ hq]

theorem lookupTag_finishTags (p : Provider) (pre : Str) (m : Tags) (k : Str) :
    lookupTag (finishTags p pre m) (pre ++ k) =
      (lookupTag m k).map fun v => (SanitizeTagValue p v).take (GetMaxTagLength p) := by
  induction m with
  | nil => rfl
  | cons q rest ih =>
      by_cases hq : q.1 = k
      · simp [finishTags, lookupTag, hq]
      · have hne : ¬ pre ++ q.1 = pre ++ k := by
          intro hcontra
          exact hq (List.append_cancel_left hcontra)
        simp only [finishTags, List.map_cons, lookupTag, if_neg hne, if_neg hq]
        exact ih

theorem mem_keys_upsert_self (m : Tags) (k v : Str) :
    k ∈ (upsertTag m k v).map Prod.fst := by
  unfold upsertTag
  split
  case isTrue h =>
    simp only [List.any_eq_true, decide_eq_true_eq] at h
    obtain ⟨p, hp, hpk⟩ := h
    refine List.mem_map.mpr ⟨(k, v), ?_, rfl⟩
    refine List.mem_map.mpr ⟨p, hp, ?_⟩
    simp [hpk]
  case isFalse h => simp

theorem mem_keys_upsert_of_mem (m : Tags) (k k' v : Str)
    (h : k ∈ m.map Prod.fst) :
    k ∈ (upsertTag m k' v).map Prod.fst := by
  unfold upsertTag
  split
  case isTrue hAny =>
    obtain ⟨p, hp, hpk⟩ := List.mem_map.mp h
    by_cases hk : p.1 = k'
    · refine List.mem_map.mpr ⟨(k', v), List.mem_map.mpr ⟨p, hp, by simp [hk]⟩, ?_⟩
      rw [← hpk, hk]
    · exact List.mem_map.mpr ⟨p, List.mem_map.mpr ⟨p, hp, by simp [hk]⟩, hpk⟩
  case isFalse hAny =>
    rw [List.map_append]
    exact List.mem_append_left _ h

theorem mem_keys_mergeTags_left (dst src : Tags) (k : Str)
    (h : k ∈ dst.map Prod.fst) :
    k ∈ (mergeTags dst src).map Prod.fst := by
  induction src generalizing dst with
  | nil => exact h
  | cons q rest ih =>
      rw [mergeTags_cons]
      exact ih _ (mem_keys_upsert_of_mem _ _ _ _ h)

theorem mem_keys_mergeTags_of_mem (dst src : Tags) (k v : Str)
    (h : (k, v) ∈ src) :
    k ∈ (mergeTags dst src).map Prod.fst := by
  induction src generalizing dst with
  | nil => simp at h
  | cons q rest ih =>
      rw [mergeTags_cons]
      rcases List.mem_cons.mp h with h | h
      · have : k = q.1 := by rw [← h]
        subst this
        exact mem_keys_mergeTags_left _ _ _ (mem_keys_upsert_self _ _ _)
      · exact ih _ h

/-! ### Lemmas about lookups under permutation (for the formatters) -/

theorem lookupTag_eq_some_of_mem (m : Tags) (k v : Str)
    (hnd : (m.map Prod.fst).Nodup) (h : (k, v) ∈ m) :
    lookupTag m k = some v := by
  induction m with
  | nil => simp at h
  | cons q rest ih =>
      rw [List.map_cons, List.nodup_cons] at hnd
      rcases List.mem_cons.mp h with h | h
      · subst h
        simp [lookupTag]
      · have hq : ¬ q.1 = k := by
          intro hqk
          exact hnd.1 (hqk ▸ List.mem_map.mpr ⟨(k, v), h, rfl⟩)
        simp only [lookupTag, if_neg hq]
        exact ih hnd.2 h

theorem mem_of_lookupTag_eq_some (m : Tags) (k v : Str)
    (h : lookupTag m k = some v) : (k, v) ∈ m := by
  induction m with
  | nil => simp [lookupTag] at h
  | cons q rest ih =>
      by_cases hq : q.1 = k
      · simp only [lookupTag, if_pos hq] at h
        obtain ⟨q1, q2⟩ := q
        simp only at hq
        subst hq
        rw [Option.some.injEq] at h
        subst h
        exact List.mem_cons_self _ _
      · simp only [lookupTag, if_neg hq] at h
        exact List.mem_cons_of_mem _ (ih h)

theorem lookupTag_perm (m m' : Tags) (hperm : List.Perm m m')
    (hnd : (m.map Prod.fst).Nodup) (k : Str) :
    lookupTag m k = lookupTag m' k := by
  have hnd' : (m'.map Prod.fst).Nodup := ((hperm.map Prod.fst).nodup_iff).mp hnd
  cases hm : lookupTag m k with
  | none =>
      rw [lookupTag_eq_none_iff] at hm
      symm
      rw [lookupTag_eq_none_iff]
      intro p hp
      exact hm p (hperm.mem_iff.mpr hp)
  | some v =>
      have hmem : (k, v) ∈ m := mem_of_lookupTag_eq_some m k v hm
      exact (lookupTag_eq_some_of_mem m' k v hnd' (hperm.mem_iff.mp hmem)).symm

/-! ### Naming lemmas -/

theorem joinHyphen_nil : joinHyphen [] = [] := by
  simp [joinHyphen, List.intercalate]

theorem joinHyphen_singleton (a : Str) : joinHyphen [a] = a := by
  simp [joinHyphen, List.intercalate, List.intersperse]

theorem joinHyphen_three (a b c : Str) :
    joinHyphen [a, b, c] = a ++ '-' :: (b ++ '-' :: c) := by
  simp [joinHyphen, List.intercalate, List.intersperse]

theorem joinedInput_only_name (ng : NameGenerator)
    (hns : ng.Namespace = []) (henv : ng.Environment = []) :
    joinedInput ng = ng.Name := by
  by_cases hn : ng.Name = []
  · rw [joinedInput, generateParts]
    simp only [hns, henv, hn, ne_eq, not_true_eq_false, if_false,
      List.append_nil, List.nil_append]
    rw [joinHyphen_nil]
  · rw [joinedInput, generateParts]
    simp only [hns, henv, hn, ne_eq, not_true_eq_false, not_false_eq_true,
      if_false, if_true, List.append_nil, List.nil_append]
    exact joinHyphen_singleton _

theorem joinedInput_all (ng : NameGenerator)
    (h1 : ng.Namespace ≠ []) (h2 : ng.Name ≠ []) (h3 : ng.Environment ≠ []) :
    joinedInput ng = ng.Namespace ++ '-' :: (ng.Name ++ '-' :: ng.Environment) := by
  rw [joinedInput, generateParts, if_pos h1, if_pos h2, if_pos h3]
  exact joinHyphen_three _ _ _

theorem generateParts_ne_nil (ng : NameGenerator)
    (h : ng.Namespace ≠ [] ∨ ng.Environment ≠ []) :
    generateParts ng ≠ [] := by
  rcases h with h | h
  · simp [generateParts, h]
  · simp [generateParts, h]

theorem Generate_eq_validateAndTruncate (ng : NameGenerator)
    (h : 1 ≤ (joinedInput ng).length) :
    Generate ng = validateAndTruncate ng (joinedInput ng) := by
  unfold Generate
  split
  case isTrue hcase =>
    obtain ⟨hns, henv⟩ := hcase
    have hji := joinedInput_only_name ng hns henv
    split
    case isTrue hn =>
      rw [hji, hn] at h
      simp at h
    case isFalse hn =>
      rw [hji]
  case isFalse hcase =>
    have hne : ng.Namespace ≠ [] ∨ ng.Environment ≠ [] := by
      by_contra hc
      push_neg at hc
      exact hcase ⟨hc.1, hc.2⟩
    rw [if_neg (generateParts_ne_nil ng hne)]
    rfl

theorem trimSuffixHyphen_prefixOf (s : Str) : trimSuffixHyphen s <+: s := by
  unfold trimSuffixHyphen
  split
  · exact List.dropLast_prefix s
  · exact List.prefix_refl s

theorem trimSuffixHyphen_length_le (s : Str) :
    (trimSuffixHyphen s).length ≤ s.length :=
  (trimSuffixHyphen_prefixOf s).length_le

theorem dropHyphensRev_length_le (s : Str) :
    (dropHyphensRev s).length ≤ s.length := by
  induction s with
  | nil => simp [dropHyphensRev]
  | cons c rest ih =>
      unfold dropHyphensRev
      split
      · simp only [List.length_cons]
        omega
      · simp

theorem stripTrailingHyphens_length_le (s : Str) :
    (stripTrailingHyphens s).length ≤ s.length := by
  unfold stripTrailingHyphens
  rw [List.length_reverse]
  have := dropHyphensRev_length_le s.reverse
  rw [List.length_reverse] at this
  exact this

theorem namePrefixMatch_length {s : Str} (h : namePrefixMatch s = true) :
    2 ≤ s.length ∧ s.length ≤ 24 := by
  simp only [namePrefixMatch, Bool.and_eq_true, decide_eq_true_eq] at h
  exact ⟨h.1.1.1.1, h.1.1.1.2⟩

theorem isAsciiLower_nameMid {c : Char} (h : isAsciiLower c = true) :
    isNameMid c = true := by
  simp [isNameMid, h]

theorem namePrefixMatch_all_mid {s : Str} (h : namePrefixMatch s = true) :
    ∀ c ∈ s, isNameMid c = true := by
  cases s with
  | nil => simp
  | cons a t =>
      simp only [namePrefixMatch, Bool.and_eq_true, decide_eq_true_eq,
        List.head?, List.tail_cons] at h
      obtain ⟨⟨⟨⟨h1, h2⟩, hhead⟩, htail⟩, hlast⟩ := h
      intro c hc
      rcases List.mem_cons.mp hc with rfl | hct
      · exact isAsciiLower_nameMid hhead
      · exact List.all_eq_true.mp htail c hct

theorem namePrefixMatch_lower {s : Str} (h : namePrefixMatch s = true) :
    goToLower s = s :=
  goToLower_of_all_mid (namePrefixMatch_all_mid h)

theorem validateAndTruncate_ok {ng : NameGenerator} {x s : Str}
    (h : validateAndTruncate ng x = .ok s) : namePrefixMatch s = true := by
  simp only [validateAndTruncate] at h
  split at h
  · exact absurd h (by simp)
  · split at h <;> split at h <;>
      first
        | (rename_i hm
           rw [Except.ok.injEq] at h
           rw [← h]
           exact hm)
        | exact absurd h (by simp)

theorem validateAndTruncate_of_match (ng : NameGenerator) (x : Str)
    (h : namePrefixMatch (goToLower x) = true) :
    validateAndTruncate ng x = .ok (goToLower x) := by
  have h1 := (namePrefixMatch_length h).1
  have h2 := (namePrefixMatch_length h).2
  have hlt : ¬ (goToLower x).length < MinNamePrefixLength := by
    simp only [MinNamePrefixLength]
    omega
  have hgt : ¬ MaxNamePrefixLength < (goToLower x).length := by
    simp only [MaxNamePrefixLength]
    omega
  simp only [validateAndTruncate]
  rw [if_neg hlt, if_neg hgt, if_pos h]

theorem validateAndTruncate_invalid (ng : NameGenerator) (x : Str)
    (hlen : 2 ≤ x.length)
    (hm : namePrefixMatch
      (if MaxNamePrefixLength < (goToLower x).length then
        intelligentTruncate ng (goToLower x)
       else goToLower x) = false) :
    validateAndTruncate ng x = .error .invalidFormat := by
  have hx : ¬ (goToLower x).length < MinNamePrefixLength := by
    rw [goToLower_length]
    simp only [MinNamePrefixLength]
    omega
  simp only [validateAndTruncate]
  rw [if_neg hx, if_neg (by simp [hm])]

theorem intelligentTruncate_preferred (ng : NameGenerator) (np : Str)
    (hgt : MaxNamePrefixLength < np.length)
    (hns : ng.Namespace ≠ []) (hname : ng.Name ≠ []) (henv : ng.Environment ≠ [])
    (hav : 2 ≤ (MaxNamePrefixLength : Int) -
      ((ng.Namespace.length : Int) + (ng.Environment.length : Int) + 2)) :
    ∃ tn, tn <+: ng.Name ∧
      intelligentTruncate ng np =
        ng.Namespace ++ '-' :: (tn ++ '-' :: ng.Environment) := by
  simp only [intelligentTruncate]
  rw [if_neg (Nat.not_le.mpr hgt), if_pos ⟨hns, hname, henv, hav⟩]
  refine ⟨_, ?_, rfl⟩
  split
  · exact (trimSuffixHyphen_prefixOf _).trans (List.take_prefix _ _)
  · exact trimSuffixHyphen_prefixOf _

theorem concat_length_le (ns env tn : Str) (A : Nat)
    (h1 : tn.length ≤ A) (h2 : ns.length + env.length + 2 + A ≤ 24) :
    (ns ++ '-' :: (tn ++ '-' :: env)).length ≤ 24 := by
  simp only [List.length_append, List.length_cons]
  omega

theorem intelligentTruncate_length (ng : NameGenerator) (np : Str)
    (hlen : ng.Namespace ≠ [] → ng.Name ≠ [] → ng.Environment ≠ [] →
      np.length = ng.Namespace.length + ng.Name.length + ng.Environment.length + 2) :
    (intelligentTruncate ng np).length ≤ MaxNamePrefixLength := by
  simp only [intelligentTruncate, MaxNamePrefixLength]
  split
  case isTrue h => exact h
  case isFalse hgt =>
    split
    case isTrue hc =>
      obtain ⟨hns, hname, henv, hav⟩ := hc
      have hlen' := hlen hns hname henv
      split
      case isTrue hlt =>
        apply concat_length_le _ _ _
          (((24 : Nat) : Int) -
            ((ng.Namespace.length : Int) + (ng.Environment.length : Int) + 2)).toNat
        · exact le_trans (trimSuffixHyphen_length_le _)
            (by simp [List.length_take])
        · omega
      case isFalse hge =>
        exfalso
        omega
    case isFalse hc =>
      have hs := stripTrailingHyphens_length_le (np.take 24)
      have ht : (np.take 24).length ≤ 24 := by
        simp [List.length_take]
      split
      case isTrue h =>
        have hd := List.length_dropLast (stripTrailingHyphens (np.take 24))
        omega
      case isFalse h =>
        omega

/-! ### Stage-level lookup lemmas for the tag pipeline -/

theorem lookupTag_nil (k : Str) : lookupTag [] k = none := rfl

theorem upsert_ne_simp {k' k : Str} (h : ¬ k' = k) (m : Tags) (v : Str) :
    lookupTag (upsertTag m k' v) k = lookupTag m k :=
  lookupTag_upsert_ne m k' v k h

theorem addTag_ne_simp {k' k : Str} (h : ¬ k' = k) (cfg : DataSourceConfig)
    (m : Tags) (v na : Str) :
    lookupTag (addTag cfg m k' v na) k = lookupTag m k :=
  lookupTag_addTag_ne cfg m k' v na k h

theorem lookupTag_pmStage_ne (cfg : DataSourceConfig) (p : Provider)
    (tags : Tags) (k : Str) (h : ¬ "projectmgmtid".data = k) :
    lookupTag (pmStage cfg p tags) k = lookupTag tags k := by
  simp only [pmStage]
  split
  · exact upsert_ne_simp h _ _
  · exact addTag_ne_simp h _ _ _ _

theorem lookupTag_itsmStage_ne (cfg : DataSourceConfig) (p : Provider)
    (tags : Tags) (k : Str) (h1 : ¬ "systemid".data = k)
    (h2 : ¬ "componentid".data = k) (h3 : ¬ "instanceid".data = k) :
    lookupTag (itsmStage cfg p tags) k = lookupTag tags k := by
  simp only [itsmStage]
  split_ifs <;>
    simp [upsert_ne_simp h1, upsert_ne_simp h2, upsert_ne_simp h3,
      addTag_ne_simp h1, addTag_ne_simp h2, addTag_ne_simp h3]

theorem lookupTag_ownersStage_ne (cfg : DataSourceConfig) (p : Provider)
    (tags : Tags) (k : Str) (h1 : ¬ "productowners".data = k)
    (h2 : ¬ "codeowners".data = k) :
    lookupTag (ownersStage cfg p tags) k = lookupTag tags k := by
  simp only [ownersStage]
  split_ifs <;> simp [upsert_ne_simp h1, upsert_ne_simp h2]

theorem lookupTag_gitStage_ne (cfg : DataSourceConfig) (p : Provider)
    (g : Option GitInfo) (tags : Tags) (k : Str)
    (h1 : ¬ "sourcerepo".data = k) (h2 : ¬ "sourcecommit".data = k) :
    lookupTag (gitStage cfg p g tags) k = lookupTag tags k := by
  cases g <;> simp only [gitStage] <;> split_ifs <;>
    simp [addTag_ne_simp h1, addTag_ne_simp h2]

theorem lookupTag_pmStage_empty (cfg : DataSourceConfig) (p : Provider)
    (tags : Tags) (hv : cfg.PMProjectCode = []) :
    lookupTag (pmStage cfg p tags) "projectmgmtid".data =
      if cfg.NotApplicableEnabled then some (GetNAValue p)
      else lookupTag tags "projectmgmtid".data := by
  simp only [pmStage]
  rw [if_neg (by simp [hv]), hv, lookupTag_addTag_empty]

theorem lookupTag_itsmStage_systemid (cfg : DataSourceConfig) (p : Provider)
    (tags : Tags)
    (hH : ¬ (cfg.SystemPrefixesEnabled = true ∧ cfg.ITSMPlatform ≠ []))
    (hv : cfg.ITSMSystemID = []) :
    lookupTag (itsmStage cfg p tags) "systemid".data =
      if cfg.NotApplicableEnabled then some (GetNAValue p)
      else lookupTag tags "systemid".data := by
  simp only [itsmStage]
  rw [if_neg hH,
    addTag_ne_simp (by decide : ¬ "instanceid".data = "systemid".data),
    addTag_ne_simp (by decide : ¬ "componentid".data = "systemid".data),
    hv, lookupTag_addTag_empty]

theorem lookupTag_itsmStage_componentid (cfg : DataSourceConfig) (p : Provider)
    (tags : Tags)
    (hH : ¬ (cfg.SystemPrefixesEnabled = true ∧ cfg.ITSMPlatform ≠ []))
    (hv : cfg.ITSMComponentID = []) :
    lookupTag (itsmStage cfg p tags) "componentid".data =
      if cfg.NotApplicableEnabled then some (GetNAValue p)
      else lookupTag tags "componentid".data := by
  simp only [itsmStage]
  rw [if_neg hH,
    addTag_ne_simp (by decide : ¬ "instanceid".data = "componentid".data),
    hv, lookupTag_addTag_empty,
    addTag_ne_simp (by decide : ¬ "systemid".data = "componentid".data)]

theorem lookupTag_itsmStage_instanceid (cfg : DataSourceConfig) (p : Provider)
    (tags : Tags)
    (hH : ¬ (cfg.SystemPrefixesEnabled = true ∧ cfg.ITSMPlatform ≠ []))
    (hv : cfg.ITSMInstanceID = []) :
    lookupTag (itsmStage cfg p tags) "instanceid".data =
      if cfg.NotApplicableEnabled then some (GetNAValue p)
      else lookupTag tags "instanceid".data := by
  simp only [itsmStage]
  rw [if_neg hH, hv, lookupTag_addTag_empty,
    addTag_ne_simp (by decide : ¬ "componentid".data = "instanceid".data),
    addTag_ne_simp (by decide : ¬ "systemid".data = "instanceid".data)]

/-- The not-applicable literal of every provider passes unchanged through
value sanitization and truncation. -/
theorem finish_na_value (p : Provider) :
    (SanitizeTagValue p (GetNAValue p)).take (GetMaxTagLength p) =
      GetNAValue p := by
  cases p <;> decide

theorem map_ite_na (p : Provider) (b : Bool) :
    (Option.map (fun v => (SanitizeTagValue p v).take (GetMaxTagLength p))
      (if b = true then some (GetNAValue p) else none)) =
      if b = true then some (GetNAValue p) else none := by
  cases b <;> simp [finish_na_value]

/-! ### Claim theorems: name generation -/

/-- C3 (counterexample): `Generate` with all three fields empty returns the
empty-required-input error ("name is required when namespace and environment
are not provided"), not the all-fields-empty error named by the claim — the
all-fields-empty branch is unreachable, because the only-name path already
handles every configuration with empty namespace and environment. -/
theorem generate_all_empty_cex :
    Generate ⟨[], [], []⟩ = .error .nameRequired ∧
    NameError.nameRequired ≠ NameError.allEmpty := by
  exact ⟨by decide, by decide⟩

/-- C3 (amended): `Generate("", "", "")` fails with the name-required error
(not the all-fields-empty one); `Generate("", "a", "")` fails with the
too-short error; `Generate("", "ab", "")` succeeds returning exactly "ab". -/
theorem generate_edge_cases :
    Generate ⟨[], [], []⟩ = .error .nameRequired ∧
    Generate ⟨[], "a".data, []⟩ = .error .tooShort ∧
    Generate ⟨[], "ab".data, []⟩ = .ok "ab".data := by
  exact ⟨by decide, by decide, by decide⟩

/-- C5 (counterexample): a hyphen-joined, lowercased input of length at most
24 on which `Generate` nonetheless fails: "a!" has length 2 but does not
match the name-prefix pattern, so `Generate` returns the invalid-format
error instead of succeeding. -/
theorem generate_below_limit_cex :
    (goToLower (joinedInput ⟨[], "a!".data, []⟩)).length ≤ 24 ∧
    Generate ⟨[], "a!".data, []⟩ = .error .invalidFormat := by
  exact ⟨by decide, by decide⟩

/-- C5 (amended): for every namespace/name/environment combination whose
hyphen-join of the non-empty fields, after lowercasing, matches the
name-prefix pattern `^[a-z][a-z0-9-]{0,22}[a-z0-9]$` (which entails length
2–24), `Generate` succeeds and returns exactly that joined lowercase
string. -/
theorem generate_below_limit (ng : NameGenerator)
    (h : namePrefixMatch (goToLower (joinedInput ng)) = true) :
    Generate ng = .ok (goToLower (joinedInput ng)) := by
  have h2 := (namePrefixMatch_length h).1
  have hg := goToLower_length (joinedInput ng)
  rw [Generate_eq_validateAndTruncate ng (by omega)]
  exact validateAndTruncate_of_match ng _ h

/-- C5 (witness): the amended theorem applied at myorg/app/prod. -/
theorem generate_below_limit_wit :
    Generate ⟨"myorg".data, "app".data, "prod".data⟩ =
      .ok "myorg-app-prod".data :=
  (generate_below_limit ⟨"myorg".data, "app".data, "prod".data⟩ (by decide)).trans
    (congrArg Except.ok (by decide))

/-- C7: every string successfully returned by `Generate` matches
`^[a-z][a-z0-9-]{0,22}[a-z0-9]$` (hence has length 2–24 and is unchanged by
lowercasing), and whenever the string produced by the lowercasing and
truncation steps fails the pattern (with the minimum-length check already
passed), `Generate` returns the invalid-format error. -/
theorem generate_output_pattern (ng : NameGenerator) (s : Str) :
    (Generate ng = .ok s →
      namePrefixMatch s = true ∧ 2 ≤ s.length ∧ s.length ≤ 24 ∧
        goToLower s = s) ∧
    (2 ≤ (joinedInput ng).length →
      namePrefixMatch (truncStep ng) = false →
      Generate ng = .error .invalidFormat) := by
  constructor
  · intro h
    have hm : namePrefixMatch s = true := by
      simp only [Generate] at h
      split at h
      · split at h
        · exact absurd h (by simp)
        · exact validateAndTruncate_ok h
      · split at h
        · exact absurd h (by simp)
        · exact validateAndTruncate_ok h
    exact ⟨hm, (namePrefixMatch_length hm).1, (namePrefixMatch_length hm).2,
      namePrefixMatch_lower hm⟩
  · intro hlen hm
    rw [Generate_eq_validateAndTruncate ng (by omega)]
    exact validateAndTruncate_invalid ng _ hlen hm

/-- C7 (witness): the theorem applied at the successful output "ab". -/
theorem generate_output_pattern_wit :
    namePrefixMatch "ab".data = true ∧ 2 ≤ "ab".data.length ∧
      "ab".data.length ≤ 24 ∧ goToLower "ab".data = "ab".data :=
  (generate_output_pattern ⟨[], "ab".data, []⟩ "ab".data).1 (by decide)

/-- C1 (counterexample): for verylongorg/verylongappname/production the
leftover space for the name is 24 − 11 − 10 − 2 = 1 < 2, so `Generate`
falls back to hard truncation and returns "verylongorg-verylongappn" — the
environment segment "production" does not appear, contradicting the claimed
`verylongorg-<shortened name>-production` shape; moreover, on the
25-hyphen name the truncation step returns "-", which has a trailing hyphen
and length 1 < 2, contradicting the claimed unconditional guarantees. -/
theorem truncation_policy_cex :
    (Generate ⟨"verylongorg".data, "verylongappname".data, "production".data⟩ =
      .ok "verylongorg-verylongappn".data ∧
      ¬ ("production".data <:+ "verylongorg-verylongappn".data)) ∧
    intelligentTruncate ⟨[], List.replicate 25 '-', []⟩
      (goToLower (joinedInput ⟨[], List.replicate 25 '-', []⟩)) = ['-'] := by
  exact ⟨⟨by decide, by decide⟩, by decide⟩

/-- C1 (amended): when the hyphen-joined, lowercased input exceeds 24
characters, the truncation step always returns a string of length at most
24; when namespace, name and environment are all non-empty and the leftover
space `24 − |namespace| − |environment| − 2` is at least 2, namespace and
environment appear in full, unmodified, and only the name segment is
shortened (it is replaced by a prefix of the name); otherwise the fallback
hard truncation applies — in particular verylongorg/verylongappname/
production (leftover 1) yields "verylongorg-verylongappn", without the
final "-production". -/
theorem truncation_policy (ng : NameGenerator)
    (h : MaxNamePrefixLength < (goToLower (joinedInput ng)).length) :
    (intelligentTruncate ng (goToLower (joinedInput ng))).length ≤
        MaxNamePrefixLength ∧
    (ng.Namespace ≠ [] → ng.Name ≠ [] → ng.Environment ≠ [] →
      2 ≤ (MaxNamePrefixLength : Int) -
        ((ng.Namespace.length : Int) + (ng.Environment.length : Int) + 2) →
      ∃ tn, tn <+: ng.Name ∧
        intelligentTruncate ng (goToLower (joinedInput ng)) =
          ng.Namespace ++ '-' :: (tn ++ '-' :: ng.Environment)) ∧
    Generate ⟨"verylongorg".data, "verylongappname".data, "production".data⟩ =
      .ok "verylongorg-verylongappn".data := by
  refine ⟨?_, ?_, by decide⟩
  · apply intelligentTruncate_length
    intro hns hname henv
    rw [goToLower_length, joinedInput_all ng hns hname henv]
    simp only [List.length_append, List.length_cons]
    omega
  · intro hns hname henv hav
    exact intelligentTruncate_preferred ng _ h hns hname henv hav

/-- C1 (witness): the amended theorem applied at
myorg/verylongappname/prod, whose joined form has 26 > 24 characters. -/
theorem truncation_policy_wit :
    (intelligentTruncate ⟨"myorg".data, "verylongappname".data, "prod".data⟩
      (goToLower (joinedInput
        ⟨"myorg".data, "verylongappname".data, "prod".data⟩))).length ≤
      MaxNamePrefixLength :=
  (truncation_policy ⟨"myorg".data, "verylongappname".data, "prod".data⟩
    (by decide)).1

/-! ### Claim theorems: sanitizers -/

/-- C4 (counterexample): the AWS sanitize regex is written as a Go raw
string in which `\\` is a regex-escaped literal backslash, so backslash is
in the allowed set and is left unchanged — while the claim's set (which
reads `\\.` as an escaped dot) excludes it and predicts replacement by an
underscore. -/
theorem aws_sanitize_backslash_cex :
    awsSpecAllowed '\\' = false ∧
    SanitizeTagValue .aws ['\\'] = ['\\'] ∧ ('\\' : Char) ≠ '_' := by
  exact ⟨by decide, by decide, by decide⟩

/-- C4 (amended): the AWS sanitizer leaves every character of the claim's
set unchanged — hence a value made only of such characters is returned
unchanged — and replaces every character outside that set with an
underscore, except the backslash, which the code's character class also
admits and leaves unchanged. -/
theorem aws_sanitize_charset :
    (∀ s : Str, s.all awsSpecAllowed = true → SanitizeTagValue .aws s = s) ∧
    (∀ s : Str, SanitizeTagValue .aws s =
      s.map fun c => if awsSpecAllowed c || c == '\\' then c else '_') := by
  have heq : ∀ c : Char, awsValueAllowed c = (awsSpecAllowed c || c == '\\') := by
    intro c
    rw [Bool.eq_iff_iff]
    simp only [awsValueAllowed, awsSpecAllowed, Bool.or_eq_true]
    tauto
  constructor
  · intro s hs
    simp only [SanitizeTagValue]
    have hid : List.map (fun c => if awsValueAllowed c then c else '_') s =
        List.map id s :=
      List.map_congr_left fun c hc => by
        have h1 : awsSpecAllowed c = true := List.all_eq_true.mp hs c hc
        have h2 : awsValueAllowed c = true := by
          rw [heq c, h1]
          rfl
        simp [h2]
    simpa using hid
  · intro s
    simp only [SanitizeTagValue]
    apply List.map_congr_left
    intro c _
    rw [heq c]

/-- C4 (witness): the amended theorem applied to a value made only of
characters from the claim's allowed set. -/
theorem aws_sanitize_charset_wit :
    SanitizeTagValue .aws "abc=1 2/3.x".data = "abc=1 2/3.x".data :=
  aws_sanitize_charset.1 "abc=1 2/3.x".data (by decide)

/-- C8: for each of the four cloud providers, `SanitizeTagValue` is
idempotent — every sanitizer output is a fixed point of that sanitizer. -/
theorem sanitize_idempotent (p : Provider) (s : Str) :
    SanitizeTagValue p (SanitizeTagValue p s) = SanitizeTagValue p s := by
  cases p with
  | aws =>
      simp only [SanitizeTagValue, List.map_map]
      apply List.map_congr_left
      intro c _
      simp only [Function.comp]
      by_cases h : awsValueAllowed c = true
      · rw [if_pos h, if_pos h]
      · rw [if_neg h, if_pos (by decide : awsValueAllowed '_' = true)]
  | azure =>
      simp only [SanitizeTagValue, List.filter_filter, Bool.and_self]
  | gcp =>
      simp only [SanitizeTagValue, goToLower, List.map_map]
      apply List.map_congr_left
      intro c _
      simp only [Function.comp]
      by_cases h : gcpValueAllowed (goToLowerChar c) = true
      · rw [if_pos h,
          goToLowerChar_of_not_upper (gcpValueAllowed_not_upper h), if_pos h]
      · rw [if_neg h, (by decide : goToLowerChar '-' = '-'),
          if_pos (by decide : gcpValueAllowed '-' = true)]
  | dflt =>
      simp only [SanitizeTagValue, List.map_map]
      apply List.map_congr_left
      intro c _
      simp only [Function.comp]
      by_cases h : defaultValueRemoved c = true
      · rw [if_pos h, if_neg (by decide : ¬ defaultValueRemoved '_' = true)]
      · rw [if_neg h, if_neg h]

/-! ### Claim theorems: tag pipeline -/

theorem lookupTag_assembleDataTags_dataowners (cfg : DataSourceConfig)
    (p : Provider) (hOwner : cfg.OwnerTagsEnabled = false)
    (hAdd : lookupTag cfg.AdditionalDataTags "dataowners".data = none) :
    lookupTag (assembleDataTags cfg p) "dataowners".data =
      if cfg.NotApplicableEnabled then some (GetNAValue p) else none := by
  simp only [assembleDataTags]
  rw [lookupTag_mergeTags_of_none _ _ _ hAdd, if_neg (by simp [hOwner])]
  by_cases hna : cfg.NotApplicableEnabled = true
  · simp [hna, lookupTag_upsert_self]
  · rw [if_neg hna, if_neg hna]
    have hbase : lookupTag (addTag cfg [] "sensitivity".data cfg.Sensitivity
        (GetNAValue p)) "dataowners".data = none := by
      rw [addTag_ne_simp (by decide : ¬ "sensitivity".data = "dataowners".data)]
      rfl
    split_ifs <;>
      simp [upsert_ne_simp
        (by decide : ¬ "dataregulations".data = "dataowners".data), hbase]

/-- C2 (counterexample): with the owner-tags toggle off but the
not-applicable toggle on, `ProcessDataTags` emits the dataowners key with
the provider's placeholder — the key is not absent, so the entry is not
gated by the owner-tags toggle alone, contrary to the claim. -/
theorem dataowners_toggle_cex :
    lookupTag (ProcessDataTags ⟨.dflt,
      { NotApplicableEnabled := true, OwnerTagsEnabled := false,
        DataOwners := ["alice".data] }, []⟩) "dataowners".data =
      some "N/A".data ∧
    some "N/A".data ≠ (none : Option Str) := by
  exact ⟨by decide, by decide⟩

/-- C2 (amended): with the owner-tags toggle off (and no caller-supplied
additional data tag named dataowners), the dataowners key of
`ProcessDataTags` is present with exactly the provider's N/A literal when
the not-applicable toggle is on, and absent when it is off: the list-join
branch is gated by the owner-tags toggle, but the placeholder branch is
gated only by the not-applicable toggle. -/
theorem dataowners_toggle (tp : TagProcessor)
    (hOwner : tp.Config.OwnerTagsEnabled = false)
    (hAdd : lookupTag tp.Config.AdditionalDataTags "dataowners".data = none) :
    lookupTag (ProcessDataTags tp) (tp.TagPrefix ++ "dataowners".data) =
      if tp.Config.NotApplicableEnabled then some (GetNAValue tp.CloudProvider)
      else none := by
  simp only [ProcessDataTags]
  rw [lookupTag_finishTags,
    lookupTag_assembleDataTags_dataowners _ _ hOwner hAdd]
  exact map_ite_na tp.CloudProvider tp.Config.NotApplicableEnabled

/-- C2 (witness): the amended theorem applied with the Azure rule, the
not-applicable toggle on and the owner-tags toggle off. -/
theorem dataowners_toggle_wit :
    lookupTag (ProcessDataTags ⟨.azure,
      { NotApplicableEnabled := true, OwnerTagsEnabled := false }, "p-".data⟩)
      ("p-".data ++ "dataowners".data) = some "NotApplicable".data := by
  have h := dataowners_toggle ⟨.azure,
    { NotApplicableEnabled := true, OwnerTagsEnabled := false }, "p-".data⟩
    rfl rfl
  simpa [GetNAValue] using h

/-- C6: for every scalar configuration field that reaches its `addTag`
call and is not overridden by a caller-supplied additional tag: when the
field is empty and the not-applicable toggle is off, its (prefixed) key is
entirely absent from the `Process` output; when the field is empty and the
toggle is on, the key is present with exactly the selected provider's N/A
literal. -/
theorem addTag_empty_scalar (tp : TagProcessor) (gitInfo : Option GitInfo)
    (f : ScalarField)
    (hH : scalarHandledByAddTag tp.Config f)
    (hv : scalarValue tp.Config f = [])
    (hAdd : lookupTag tp.Config.AdditionalTags (scalarKey f) = none) :
    lookupTag (Process tp gitInfo) (tp.TagPrefix ++ scalarKey f) =
      if tp.Config.NotApplicableEnabled then some (GetNAValue tp.CloudProvider)
      else none := by
  cases f with
  | environment =>
      simp only [scalarKey] at hAdd ⊢
      simp only [scalarValue] at hv
      simp only [Process, assembleTags]
      rw [lookupTag_finishTags,
        lookupTag_mergeTags_of_none _ _ _ hAdd,
        lookupTag_gitStage_ne _ _ _ _ _
          (by decide : ¬ "sourcerepo".data = "environment".data)
          (by decide : ¬ "sourcecommit".data = "environment".data),
        addTag_ne_simp (by decide : ¬ "privacyreview".data = "environment".data),
        addTag_ne_simp (by decide : ¬ "securityreview".data = "environment".data),
        lookupTag_ownersStage_ne _ _ _ _
          (by decide : ¬ "productowners".data = "environment".data)
          (by decide : ¬ "codeowners".data = "environment".data),
        lookupTag_itsmStage_ne _ _ _ _
          (by decide : ¬ "systemid".data = "environment".data)
          (by decide : ¬ "componentid".data = "environment".data)
          (by decide : ¬ "instanceid".data = "environment".data),
        lookupTag_pmStage_ne _ _ _ _
          (by decide : ¬ "projectmgmtid".data = "environment".data),
        addTag_ne_simp (by decide : ¬ "costcenter".data = "environment".data),
        addTag_ne_simp (by decide : ¬ "deletiondate".data = "environment".data),
        addTag_ne_simp (by decide : ¬ "managedby".data = "environment".data),
        addTag_ne_simp (by decide : ¬ "availability".data = "environment".data),
        hv,
        lookupTag_addTag_empty,
        lookupTag_nil]
      exact map_ite_na tp.CloudProvider tp.Config.NotApplicableEnabled
  | availability =>
      simp only [scalarKey] at hAdd ⊢
      simp only [scalarValue] at hv
      simp only [Process, assembleTags]
      rw [lookupTag_finishTags,
        lookupTag_mergeTags_of_none _ _ _ hAdd,
        lookupTag_gitStage_ne _ _ _ _ _
          (by decide : ¬ "sourcerepo".data = "availability".data)
          (by decide : ¬ "sourcecommit".data = "availability".data),
        addTag_ne_simp (by decide : ¬ "privacyreview".data = "availability".data),
        addTag_ne_simp (by decide : ¬ "securityreview".data = "availability".data),
        lookupTag_ownersStage_ne _ _ _ _
          (by decide : ¬ "productowners".data = "availability".data)
          (by decide : ¬ "codeowners".data = "availability".data),
        lookupTag_itsmStage_ne _ _ _ _
          (by decide : ¬ "systemid".data = "availability".data)
          (by decide : ¬ "componentid".data = "availability".data)
          (by decide : ¬ "instanceid".data = "availability".data),
        lookupTag_pmStage_ne _ _ _ _
          (by decide : ¬ "projectmgmtid".data = "availability".data),
        addTag_ne_simp (by decide : ¬ "costcenter".data = "availability".data),
        addTag_ne_simp (by decide : ¬ "deletiondate".data = "availability".data),
        addTag_ne_simp (by decide : ¬ "managedby".data = "availability".data),
        hv,
        lookupTag_addTag_empty,
        addTag_ne_simp (by decide : ¬ "environment".data = "availability".data),
        lookupTag_nil]
      exact map_ite_na tp.CloudProvider tp.Config.NotApplicableEnabled
  | managedby =>
      simp only [scalarKey] at hAdd ⊢
      simp only [scalarValue] at hv
      simp only [Process, assembleTags]
      rw [lookupTag_finishTags,
        lookupTag_mergeTags_of_none _ _ _ hAdd,
        lookupTag_gitStage_ne _ _ _ _ _
          (by decide : ¬ "sourcerepo".data = "managedby".data)
          (by decide : ¬ "sourcecommit".data = "managedby".data),
        addTag_ne_simp (by decide : ¬ "privacyreview".data = "managedby".data),
        addTag_ne_simp (by decide : ¬ "securityreview".data = "managedby".data),
        lookupTag_ownersStage_ne _ _ _ _
          (by decide : ¬ "productowners".data = "managedby".data)
          (by decide : ¬ "codeowners".data = "managedby".data),
        lookupTag_itsmStage_ne _ _ _ _
          (by decide : ¬ "systemid".data = "managedby".data)
          (by decide : ¬ "componentid".data = "managedby".data)
          (by decide : ¬ "instanceid".data = "managedby".data),
        lookupTag_pmStage_ne _ _ _ _
          (by decide : ¬ "projectmgmtid".data = "managedby".data),
        addTag_ne_simp (by decide : ¬ "costcenter".data = "managedby".data),
        addTag_ne_simp (by decide : ¬ "deletiondate".data = "managedby".data),
        hv,
        lookupTag_addTag_empty,
        addTag_ne_simp (by decide : ¬ "availability".data = "managedby".data),
        addTag_ne_simp (by decide : ¬ "environment".data = "managedby".data),
        lookupTag_nil]
      exact map_ite_na tp.CloudProvider tp.Config.NotApplicableEnabled
  | deletiondate =>
      simp only [scalarKey] at hAdd ⊢
      simp only [scalarValue] at hv
      simp only [Process, assembleTags]
      rw [lookupTag_finishTags,
        lookupTag_mergeTags_of_none _ _ _ hAdd,
        lookupTag_gitStage_ne _ _ _ _ _
          (by decide : ¬ "sourcerepo".data = "deletiondate".data)
          (by decide : ¬ "sourcecommit".data = "deletiondate".data),
        addTag_ne_simp (by decide : ¬ "privacyreview".data = "deletiondate".data),
        addTag_ne_simp (by decide : ¬ "securityreview".data = "deletiondate".data),
        lookupTag_ownersStage_ne _ _ _ _
          (by decide : ¬ "productowners".data = "deletiondate".data)
          (by decide : ¬ "codeowners".data = "deletiondate".data),
        lookupTag_itsmStage_ne _ _ _ _
          (by decide : ¬ "systemid".data = "deletiondate".data)
          (by decide : ¬ "componentid".data = "deletiondate".data)
          (by decide : ¬ "instanceid".data = "deletiondate".data),
        lookupTag_pmStage_ne _ _ _ _
          (by decide : ¬ "projectmgmtid".data = "deletiondate".data),
        addTag_ne_simp (by decide : ¬ "costcenter".data = "deletiondate".data),
        hv,
        lookupTag_addTag_empty,
        addTag_ne_simp (by decide : ¬ "managedby".data = "deletiondate".data),
        addTag_ne_simp (by decide : ¬ "availability".data = "deletiondate".data),
        addTag_ne_simp (by decide : ¬ "environment".data = "deletiondate".data),
        lookupTag_nil]
      exact map_ite_na tp.CloudProvider tp.Config.NotApplicableEnabled
  | costcenter =>
      simp only [scalarKey] at hAdd ⊢
      simp only [scalarValue] at hv
      simp only [Process, assembleTags]
      rw [lookupTag_finishTags,
        lookupTag_mergeTags_of_none _ _ _ hAdd,
        lookupTag_gitStage_ne _ _ _ _ _
          (by decide : ¬ "sourcerepo".data = "costcenter".data)
          (by decide : ¬ "sourcecommit".data = "costcenter".data),
        addTag_ne_simp (by decide : ¬ "privacyreview".data = "costcenter".data),
        addTag_ne_simp (by decide : ¬ "securityreview".data = "costcenter".data),
        lookupTag_ownersStage_ne _ _ _ _
          (by decide : ¬ "productowners".data = "costcenter".data)
          (by decide : ¬ "codeowners".data = "costcenter".data),
        lookupTag_itsmStage_ne _ _ _ _
          (by decide : ¬ "systemid".data = "costcenter".data)
          (by decide : ¬ "componentid".data = "costcenter".data)
          (by decide : ¬ "instanceid".data = "costcenter".data),
        lookupTag_pmStage_ne _ _ _ _
          (by decide : ¬ "projectmgmtid".data = "costcenter".data),
        hv,
        lookupTag_addTag_empty,
        addTag_ne_simp (by decide : ¬ "deletiondate".data = "costcenter".data),
        addTag_ne_simp (by decide : ¬ "managedby".data = "costcenter".data),
        addTag_ne_simp (by decide : ¬ "availability".data = "costcenter".data),
        addTag_ne_simp (by decide : ¬ "environment".data = "costcenter".data),
        lookupTag_nil]
      exact map_ite_na tp.CloudProvider tp.Config.NotApplicableEnabled
  | projectmgmtid =>
      simp only [scalarKey] at hAdd ⊢
      simp only [scalarValue] at hv
      simp only [scalarHandledByAddTag] at hH
      simp only [Process, assembleTags]
      rw [lookupTag_finishTags,
        lookupTag_mergeTags_of_none _ _ _ hAdd,
        lookupTag_gitStage_ne _ _ _ _ _
          (by decide : ¬ "sourcerepo".data = "projectmgmtid".data)
          (by decide : ¬ "sourcecommit".data = "projectmgmtid".data),
        addTag_ne_simp (by decide : ¬ "privacyreview".data = "projectmgmtid".data),
        addTag_ne_simp (by decide : ¬ "securityreview".data = "projectmgmtid".data),
        lookupTag_ownersStage_ne _ _ _ _
          (by decide : ¬ "productowners".data = "projectmgmtid".data)
          (by decide : ¬ "codeowners".data = "projectmgmtid".data),
        lookupTag_itsmStage_ne _ _ _ _
          (by decide : ¬ "systemid".data = "projectmgmtid".data)
          (by decide : ¬ "componentid".data = "projectmgmtid".data)
          (by decide : ¬ "instanceid".data = "projectmgmtid".data),
        lookupTag_pmStage_empty _ _ _ hv,
        addTag_ne_simp (by decide : ¬ "costcenter".data = "projectmgmtid".data),
        addTag_ne_simp (by decide : ¬ "deletiondate".data = "projectmgmtid".data),
        addTag_ne_simp (by decide : ¬ "managedby".data = "projectmgmtid".data),
        addTag_ne_simp (by decide : ¬ "availability".data = "projectmgmtid".data),
        addTag_ne_simp (by decide : ¬ "environment".data = "projectmgmtid".data),
        lookupTag_nil]
      exact map_ite_na tp.CloudProvider tp.Config.NotApplicableEnabled
  | systemid =>
      simp only [scalarKey] at hAdd ⊢
      simp only [scalarValue] at hv
      simp only [scalarHandledByAddTag] at hH
      simp only [Process, assembleTags]
      rw [lookupTag_finishTags,
        lookupTag_mergeTags_of_none _ _ _ hAdd,
        lookupTag_gitStage_ne _ _ _ _ _
          (by decide : ¬ "sourcerepo".data = "systemid".data)
          (by decide : ¬ "sourcecommit".data = "systemid".data),
        addTag_ne_simp (by decide : ¬ "privacyreview".data = "systemid".data),
        addTag_ne_simp (by decide : ¬ "securityreview".data = "systemid".data),
        lookupTag_ownersStage_ne _ _ _ _
          (by decide : ¬ "productowners".data = "systemid".data)
          (by decide : ¬ "codeowners".data = "systemid".data),
        lookupTag_itsmStage_systemid _ _ _ hH hv,
        lookupTag_pmStage_ne _ _ _ _
          (by decide : ¬ "projectmgmtid".data = "systemid".data),
        addTag_ne_simp (by decide : ¬ "costcenter".data = "systemid".data),
        addTag_ne_simp (by decide : ¬ "deletiondate".data = "systemid".data),
        addTag_ne_simp (by decide : ¬ "managedby".data = "systemid".data),
        addTag_ne_simp (by decide : ¬ "availability".data = "systemid".data),
        addTag_ne_simp (by decide : ¬ "environment".data = "systemid".data),
        lookupTag_nil]
      exact map_ite_na tp.CloudProvider tp.Config.NotApplicableEnabled
  | componentid =>
      simp only [scalarKey] at hAdd ⊢
      simp only [scalarValue] at hv
      simp only [scalarHandledByAddTag] at hH
      simp only [Process, assembleTags]
      rw [lookupTag_finishTags,
        lookupTag_mergeTags_of_none _ _ _ hAdd,
        lookupTag_gitStage_ne _ _ _ _ _
          (by decide : ¬ "sourcerepo".data = "componentid".data)
          (by decide : ¬ "sourcecommit".data = "componentid".data),
        addTag_ne_simp (by decide : ¬ "privacyreview".data = "componentid".data),
        addTag_ne_simp (by decide : ¬ "securityreview".data = "componentid".data),
        lookupTag_ownersStage_ne _ _ _ _
          (by decide : ¬ "productowners".data = "componentid".data)
          (by decide : ¬ "codeowners".data = "componentid".data),
        lookupTag_itsmStage_componentid _ _ _ hH hv,
        lookupTag_pmStage_ne _ _ _ _
          (by decide : ¬ "projectmgmtid".data = "componentid".data),
        addTag_ne_simp (by decide : ¬ "costcenter".data = "componentid".data),
        addTag_ne_simp (by decide : ¬ "deletiondate".data = "componentid".data),
        addTag_ne_simp (by decide : ¬ "managedby".data = "componentid".data),
        addTag_ne_simp (by decide : ¬ "availability".data = "componentid".data),
        addTag_ne_simp (by decide : ¬ "environment".data = "componentid".data),
        lookupTag_nil]
      exact map_ite_na tp.CloudProvider tp.Config.NotApplicableEnabled
  | instanceid =>
      simp only [scalarKey] at hAdd ⊢
      simp only [scalarValue] at hv
      simp only [scalarHandledByAddTag] at hH
      simp only [Process, assembleTags]
      rw [lookupTag_finishTags,
        lookupTag_mergeTags_of_none _ _ _ hAdd,
        lookupTag_gitStage_ne _ _ _ _ _
          (by decide : ¬ "sourcerepo".data = "instanceid".data)
          (by decide : ¬ "sourcecommit".data = "instanceid".data),
        addTag_ne_simp (by decide : ¬ "privacyreview".data = "instanceid".data),
        addTag_ne_simp (by decide : ¬ "securityreview".data = "instanceid".data),
        lookupTag_ownersStage_ne _ _ _ _
          (by decide : ¬ "productowners".data = "instanceid".data)
          (by decide : ¬ "codeowners".data = "instanceid".data),
        lookupTag_itsmStage_instanceid _ _ _ hH hv,
        lookupTag_pmStage_ne _ _ _ _
          (by decide : ¬ "projectmgmtid".data = "instanceid".data),
        addTag_ne_simp (by decide : ¬ "costcenter".data = "instanceid".data),
        addTag_ne_simp (by decide : ¬ "deletiondate".data = "instanceid".data),
        addTag_ne_simp (by decide : ¬ "managedby".data = "instanceid".data),
        addTag_ne_simp (by decide : ¬ "availability".data = "instanceid".data),
        addTag_ne_simp (by decide : ¬ "environment".data = "instanceid".data),
        lookupTag_nil]
      exact map_ite_na tp.CloudProvider tp.Config.NotApplicableEnabled
  | securityreview =>
      simp only [scalarKey] at hAdd ⊢
      simp only [scalarValue] at hv
      simp only [Process, assembleTags]
      rw [lookupTag_finishTags,
        lookupTag_mergeTags_of_none _ _ _ hAdd,
        lookupTag_gitStage_ne _ _ _ _ _
          (by decide : ¬ "sourcerepo".data = "securityreview".data)
          (by decide : ¬ "sourcecommit".data = "securityreview".data),
        addTag_ne_simp (by decide : ¬ "privacyreview".data = "securityreview".data),
        hv,
        lookupTag_addTag_empty,
        lookupTag_ownersStage_ne _ _ _ _
          (by decide : ¬ "productowners".data = "securityreview".data)
          (by decide : ¬ "codeowners".data = "securityreview".data),
        lookupTag_itsmStage_ne _ _ _ _
          (by decide : ¬ "systemid".data = "securityreview".data)
          (by decide : ¬ "componentid".data = "securityreview".data)
          (by decide : ¬ "instanceid".data = "securityreview".data),
        lookupTag_pmStage_ne _ _ _ _
          (by decide : ¬ "projectmgmtid".data = "securityreview".data),
        addTag_ne_simp (by decide : ¬ "costcenter".data = "securityreview".data),
        addTag_ne_simp (by decide : ¬ "deletiondate".data = "securityreview".data),
        addTag_ne_simp (by decide : ¬ "managedby".data = "securityreview".data),
        addTag_ne_simp (by decide : ¬ "availability".data = "securityreview".data),
        addTag_ne_simp (by decide : ¬ "environment".data = "securityreview".data),
        lookupTag_nil]
      exact map_ite_na tp.CloudProvider tp.Config.NotApplicableEnabled
  | privacyreview =>
      simp only [scalarKey] at hAdd ⊢
      simp only [scalarValue] at hv
      simp only [Process, assembleTags]
      rw [lookupTag_finishTags,
        lookupTag_mergeTags_of_none _ _ _ hAdd,
        lookupTag_gitStage_ne _ _ _ _ _
          (by decide : ¬ "sourcerepo".data = "privacyreview".data)
          (by decide : ¬ "sourcecommit".data = "privacyreview".data),
        hv,
        lookupTag_addTag_empty,
        addTag_ne_simp (by decide : ¬ "securityreview".data = "privacyreview".data),
        lookupTag_ownersStage_ne _ _ _ _
          (by decide : ¬ "productowners".data = "privacyreview".data)
          (by decide : ¬ "codeowners".data = "privacyreview".data),
        lookupTag_itsmStage_ne _ _ _ _
          (by decide : ¬ "systemid".data = "privacyreview".data)
          (by decide : ¬ "componentid".data = "privacyreview".data)
          (by decide : ¬ "instanceid".data = "privacyreview".data),
        lookupTag_pmStage_ne _ _ _ _
          (by decide : ¬ "projectmgmtid".data = "privacyreview".data),
        addTag_ne_simp (by decide : ¬ "costcenter".data = "privacyreview".data),
        addTag_ne_simp (by decide : ¬ "deletiondate".data = "privacyreview".data),
        addTag_ne_simp (by decide : ¬ "managedby".data = "privacyreview".data),
        addTag_ne_simp (by decide : ¬ "availability".data = "privacyreview".data),
        addTag_ne_simp (by decide : ¬ "environment".data = "privacyreview".data),
        lookupTag_nil]
      exact map_ite_na tp.CloudProvider tp.Config.NotApplicableEnabled

/-- C6 (witness): the theorem applied to the `availability` field of an
all-empty configuration with the not-applicable toggle on and the AWS
rule. -/
theorem addTag_empty_scalar_wit :
    lookupTag (Process ⟨.aws, { NotApplicableEnabled := true }, "bc-".data⟩ none)
      ("bc-".data ++ "availability".data) = some "N/A".data := by
  have h := addTag_empty_scalar
    ⟨.aws, { NotApplicableEnabled := true }, "bc-".data⟩ none .availability
    trivial rfl rfl
  simpa [scalarKey, GetNAValue] using h

/-- C9: the three output formatters produce key-sorted (lexicographically
ascending) output, are deterministic functions of the tag set alone —
permuting the association list that models the Go map leaves every output
unchanged — and the comma-joined string equals exactly the key=value list
joined with commas. -/
theorem formatters_sorted_deterministic (tags tags' : Tags)
    (hperm : List.Perm tags tags') (hnd : (tags.map Prod.fst).Nodup) :
    ((ConvertTagsToListOfMaps tags).map Prod.fst).Sorted (· ≤ ·) ∧
    ConvertTagsToListOfMaps tags = ConvertTagsToListOfMaps tags' ∧
    ConvertTagsToKVPList tags = ConvertTagsToKVPList tags' ∧
    ConvertTagsToCommaSeparated tags = ConvertTagsToCommaSeparated tags' ∧
    ConvertTagsToCommaSeparated tags =
      joinWith [','] (ConvertTagsToKVPList tags) := by
  have hsortEq : sortTagKeys (tags.map Prod.fst) =
      sortTagKeys (tags'.map Prod.fst) := by
    have hp : List.Perm (sortTagKeys (tags.map Prod.fst))
        (sortTagKeys (tags'.map Prod.fst)) :=
      (List.perm_insertionSort _ _).trans
        ((hperm.map Prod.fst).trans (List.perm_insertionSort _ _).symm)
    exact @List.eq_of_perm_of_sorted Str (· ≤ ·) _ _ _ hp
      (List.sorted_insertionSort _ _) (List.sorted_insertionSort _ _)
  have hlook : ∀ k, lookupTag tags k = lookupTag tags' k :=
    lookupTag_perm _ _ hperm hnd
  have hkvp : ConvertTagsToKVPList tags = ConvertTagsToKVPList tags' := by
    simp only [ConvertTagsToKVPList]
    rw [hsortEq]
    apply List.map_congr_left
    intro k _
    rw [hlook k]
  refine ⟨?_, ?_, hkvp, ?_, rfl⟩
  · have hkeys : (ConvertTagsToListOfMaps tags).map Prod.fst =
        sortTagKeys (tags.map Prod.fst) := by
      simp [ConvertTagsToListOfMaps, List.map_map, Function.comp_def]
    rw [hkeys]
    exact List.sorted_insertionSort _ _
  · simp only [ConvertTagsToListOfMaps]
    rw [hsortEq]
    apply List.map_congr_left
    intro k _
    rw [hlook k]
  · simp only [ConvertTagsToCommaSeparated, hkvp]

/-- C9 (witness): the theorem applied to the two insertion orders of the
tag set mapping a to 1 and b to 2, whose formatted outputs agree and are
sorted. -/
theorem formatters_sorted_deterministic_wit :
    ConvertTagsToCommaSeparated [("b".data, "2".data), ("a".data, "1".data)] =
      ConvertTagsToCommaSeparated [("a".data, "1".data), ("b".data, "2".data)] ∧
    ConvertTagsToCommaSeparated [("b".data, "2".data), ("a".data, "1".data)] =
      "a=1,b=2".data := by
  have h := formatters_sorted_deterministic
    [("b".data, "2".data), ("a".data, "1".data)]
    [("a".data, "1".data), ("b".data, "2".data)]
    (by decide) (by decide)
  exact ⟨h.2.2.2.1, by decide⟩

/-- C10: tag keys are never sanitized and never checked against the
provider's key-validity predicate: the key list of the `Process` and
`ProcessDataTags` outputs is exactly the assembled key list with the tag
prefix prepended to each key (values alone pass through `SanitizeTagValue`
and truncation), and every caller-supplied additional-tag key — even one
rejected by `ValidateTagKey` — appears prefixed and otherwise unmodified
in the output. -/
theorem keys_not_sanitized (tp : TagProcessor) (gitInfo : Option GitInfo) :
    (Process tp gitInfo).map Prod.fst =
      ((assembleTags tp.Config tp.CloudProvider gitInfo).map Prod.fst).map
        (fun k => tp.TagPrefix ++ k) ∧
    (ProcessDataTags tp).map Prod.fst =
      ((assembleDataTags tp.Config tp.CloudProvider).map Prod.fst).map
        (fun k => tp.TagPrefix ++ k) ∧
    (∀ k v, (k, v) ∈ tp.Config.AdditionalTags →
      ValidateTagKey tp.CloudProvider k = false →
      (tp.TagPrefix ++ k) ∈ (Process tp gitInfo).map Prod.fst) := by
  have h1 : (Process tp gitInfo).map Prod.fst =
      ((assembleTags tp.Config tp.CloudProvider gitInfo).map Prod.fst).map
        (fun k => tp.TagPrefix ++ k) := by
    simp [Process, finishTags, List.map_map, Function.comp_def]
  refine ⟨h1, ?_, ?_⟩
  · simp [ProcessDataTags, finishTags, List.map_map, Function.comp_def]
  · intro k v hmem _
    have hk : k ∈ (assembleTags tp.Config tp.CloudProvider gitInfo).map
        Prod.fst := by
      simp only [assembleTags]
      exact mem_keys_mergeTags_of_mem _ _ _ _ hmem
    rw [h1]
    exact List.mem_map.mpr ⟨k, hk, rfl⟩

/-- C10 (witness): the theorem applied to a configuration whose additional
tag key "bad key!" fails the GCP key-validity predicate yet appears,
prefixed and unmodified, among the output keys. -/
theorem keys_not_sanitized_wit :
    ("p-".data ++ "bad key!".data) ∈
      (Process ⟨.gcp, { AdditionalTags := [("bad key!".data, "v".data)] },
        "p-".data⟩ none).map Prod.fst :=
  (keys_not_sanitized
    ⟨.gcp, { AdditionalTags := [("bad key!".data, "v".data)] }, "p-".data⟩
    none).2.2 "bad key!".data "v".data (by decide) (by decide)

end TfCtx
